import Mathlib

/-!
Verification of the background thumbnail-enrichment pipeline
(`PhotoThumbnail::enrich` in `src/app/background/photo_thumbnail.rs`).

The embedding models the observable behaviour of one `enrich` run:
the catalog read from the repository, the work-set computation
(filter by source-file existence and absence of an existing thumbnail,
then reverse), the per-item dispatch loop with its cooperative stop
flag, the per-item fault boundary (`panic::catch_unwind` around
thumbnail generation and `add_thumbnail`), the `mark_broken` recovery
call whose own result is discarded, and the events emitted to the
progress monitor and to the component sender.

External effects are modelled by oracles:
  * `fs`    — which filesystem paths currently exist;
  * `sched` — whether the stop flag is observed set at the i-th
              dispatch check (`take_any_while` in the source);
  * `gen`   — the outcome of `thumbnailer.thumbnail` for a picture id
              (a thumbnail path, an ordinary error, or a panic);
  * `add`   — the outcome of `repo.add_thumbnail` for an id and path;
  * `mb`    — whether `repo.mark_broken` succeeds for a picture id.

A run's observable behaviour is the list of emitted `Event`s together
with the `Result` returned by `enrich`.
-/

/-- `fotema_core::photo::model::Picture`, restricted to the fields
`enrich` reads: the stable id, the source path, and the optional
thumbnail path. -/
structure Picture where
  picture_id : Nat
  path : String
  thumbnail_path : Option String
deriving DecidableEq, Repr

/-- Outcome of `thumbnailer.thumbnail(&pic.picture_id, &pic.path)`:
a thumbnail path, an ordinary `Err`, or a panic (caught by
`panic::catch_unwind`). -/
inductive GenResult where
  | ok (tp : String)
  | err
  | panicked
deriving DecidableEq, Repr

/-- Outcome of `repo.add_thumbnail(&pic.picture_id, &thumbnail_path)`:
success, an ordinary `Err`, or a panic. -/
inductive AddResult where
  | ok
  | err
  | panicked
deriving DecidableEq, Repr

/-- One observable event of a run.  `started`/`completed` are the
`PhotoThumbnailOutput` values sent on the component sender;
`pmStart`/`pmAdvance`/`pmComplete` are the `ProgressMonitorInput`
values emitted to the progress monitor; `addThumbnail` records a
successful persistence of a generated thumbnail path and `markBroken`
records a `mark_broken` call together with whether the call itself
succeeded (the source discards that result with `let _ = ...`). -/
inductive Event where
  | started
  | completed (n : Nat)
  | pmStart (n : Nat)
  | pmAdvance
  | pmComplete
  | addThumbnail (id : Nat) (tp : String)
  | markBroken (id : Nat) (ok : Bool)
deriving DecidableEq, Repr

/-- `pic.thumbnail_path.as_ref().is_some_and(|p| p.exists())`. -/
def thumbExists (fs : String → Bool) (p : Picture) : Bool :=
  match p.thumbnail_path with
  | some tp => fs tp
  | none => false

/-- The work set computed at lines 58–66: all pictures from the
repository, kept when the source file exists and no existing
thumbnail is recorded, then reversed to process newest first. -/
def workSet (fs : String → Bool) (cat : List Picture) : List Picture :=
  ((cat.filter (fun p => fs p.path)).filter (fun p => ! thumbExists fs p)).reverse

/-- The events produced by processing one picture inside the
`panic::catch_unwind` fault boundary (lines 94–117): on success of
both generation and persistence, the thumbnail is recorded; on an
ordinary error or a panic of either step, `mark_broken` is called;
in every case one `Advance` is emitted. -/
def itemEvents (gen : Nat → GenResult) (add : Nat → String → AddResult)
    (mb : Nat → Bool) (p : Picture) : List Event :=
  match gen p.picture_id with
  | .ok tp =>
    match add p.picture_id tp with
    | .ok => [.addThumbnail p.picture_id tp, .pmAdvance]
    | .err => [.markBroken p.picture_id (mb p.picture_id), .pmAdvance]
    | .panicked => [.markBroken p.picture_id (mb p.picture_id), .pmAdvance]
  | .err => [.markBroken p.picture_id (mb p.picture_id), .pmAdvance]
  | .panicked => [.markBroken p.picture_id (mb p.picture_id), .pmAdvance]

/-- The dispatch loop (lines 88–118): `take_any_while` checks the
stop flag before dispatching each item; once the flag is observed
set no further item is dispatched, and every dispatched item runs
its full per-item processing. -/
def processItems (sched : Nat → Bool) (gen : Nat → GenResult)
    (add : Nat → String → AddResult) (mb : Nat → Bool) :
    List Picture → Nat → List Event
  | [], _ => []
  | p :: ps, i =>
    if sched i then []
    else itemEvents gen add mb p ++ processItems sched gen add mb ps (i + 1)

/-- `PhotoThumbnail::enrich` (lines 49–131): read the catalog
(propagating a read error with no event emitted), compute the work
set; when it is empty send only `Completed(0)`; otherwise send
`Started`, emit `Start(task, count)` to the progress monitor, run the
dispatch loop, then emit `Complete` and send `Completed(count)`. -/
def enrich (catalog : Except String (List Picture)) (fs : String → Bool)
    (sched : Nat → Bool) (gen : Nat → GenResult)
    (add : Nat → String → AddResult) (mb : Nat → Bool) :
    List Event × Except String Unit :=
  match catalog with
  | .error e => ([], .error e)
  | .ok cat =>
    let unprocessed := workSet fs cat
    let count := unprocessed.length
    if count = 0 then
      ([.completed count], .ok ())
    else
      (.started :: .pmStart count ::
        (processItems sched gen add mb unprocessed 0 ++
          [.pmComplete, .completed count]),
        .ok ())

/-- The dispatch-loop portion of a run's trace. -/
def runBody (catalog : Except String (List Picture)) (fs : String → Bool)
    (sched : Nat → Bool) (gen : Nat → GenResult)
    (add : Nat → String → AddResult) (mb : Nat → Bool) : List Event :=
  match catalog with
  | .error _ => []
  | .ok cat => processItems sched gen add mb (workSet fs cat) 0

def isAdvanceEv : Event → Bool
  | .pmAdvance => true
  | _ => false

def isStartedEv : Event → Bool
  | .started => true
  | _ => false

def isCompletedEv : Event → Bool
  | .completed _ => true
  | _ => false

def isPmStartEv : Event → Bool
  | .pmStart _ => true
  | _ => false

/-- Events that may be produced by per-item processing. -/
def isItemEv : Event → Bool
  | .pmAdvance => true
  | .addThumbnail _ _ => true
  | .markBroken _ _ => true
  | _ => false

/-- Forget whether a `mark_broken` call itself succeeded. -/
def eraseMB : Event → Event
  | .markBroken id _ => .markBroken id true
  | e => e

/-- The processing of picture id `id` fails: generation errors or
panics, or generation succeeds and persistence errors or panics. -/
def failsFor (gen : Nat → GenResult) (add : Nat → String → AddResult)
    (id : Nat) : Prop :=
  gen id = .err ∨ gen id = .panicked ∨
    ∃ tp, gen id = .ok tp ∧ add id tp ≠ .ok

/-! ### Helper lemmas about the dispatch loop -/

lemma itemEvents_countP_advance (gen : Nat → GenResult)
    (add : Nat → String → AddResult) (mb : Nat → Bool) (p : Picture) :
    (itemEvents gen add mb p).countP isAdvanceEv = 1 := by
  cases hg : gen p.picture_id with
  | ok tp =>
    cases ha : add p.picture_id tp <;>
      simp [itemEvents, hg, ha, List.countP_cons, isAdvanceEv]
  | err => simp [itemEvents, hg, List.countP_cons, isAdvanceEv]
  | panicked => simp [itemEvents, hg, List.countP_cons, isAdvanceEv]

lemma itemEvents_isItem (gen : Nat → GenResult)
    (add : Nat → String → AddResult) (mb : Nat → Bool) (p : Picture) :
    ∀ e ∈ itemEvents gen add mb p, isItemEv e = true := by
  intro e he
  cases hg : gen p.picture_id with
  | ok tp =>
    cases ha : add p.picture_id tp <;> simp [itemEvents, hg, ha] at he <;>
      rcases he with h | h <;> subst h <;> rfl
  | err =>
    simp [itemEvents, hg] at he
    rcases he with h | h <;> subst h <;> rfl
  | panicked =>
    simp [itemEvents, hg] at he
    rcases he with h | h <;> subst h <;> rfl

lemma processItems_noStop (sched : Nat → Bool) (gen : Nat → GenResult)
    (add : Nat → String → AddResult) (mb : Nat → Bool)
    (hs : ∀ i, sched i = false) :
    ∀ (ws : List Picture) (k : Nat),
      processItems sched gen add mb ws k = ws.flatMap (itemEvents gen add mb)
  | [], _ => rfl
  | p :: ps, k => by
    rw [processItems, hs k]
    simp only [Bool.false_eq_true, if_false, List.flatMap_cons]
    rw [processItems_noStop sched gen add mb hs ps (k + 1)]

/-- The dispatch loop processes exactly a prefix of the work list:
there is a `d` such that the emitted events are those of the first
`d` items in order, the stop flag was observed unset at each of those
`d` dispatch checks, and either the whole list was dispatched or the
flag was observed set at the next check. -/
lemma processItems_eq_take (sched : Nat → Bool) (gen : Nat → GenResult)
    (add : Nat → String → AddResult) (mb : Nat → Bool) :
    ∀ (ws : List Picture) (k : Nat),
      ∃ d, d ≤ ws.length ∧
        processItems sched gen add mb ws k =
          (ws.take d).flatMap (itemEvents gen add mb) ∧
        (∀ j, j < d → sched (k + j) = false) ∧
        (d = ws.length ∨ sched (k + d) = true)
  | [], k => ⟨0, by simp [processItems]⟩
  | p :: ps, k => by
    by_cases hk : sched k = true
    · exact ⟨0, by simp [processItems, hk]⟩
    · obtain ⟨d, hd, heq, hunset, hend⟩ :=
        processItems_eq_take sched gen add mb ps (k + 1)
      refine ⟨d + 1, by simpa using hd, ?_, ?_, ?_⟩
      · rw [processItems, if_neg hk, heq]
        simp
      · intro j hj
        cases j with
        | zero => simpa using eq_false_of_ne_true hk
        | succ j =>
          have := hunset j (by omega)
          simpa [Nat.add_assoc, Nat.add_comm 1 j] using this
      · rcases hend with h | h
        · exact Or.inl (by simp [h])
        · refine Or.inr ?_
          have : k + (d + 1) = k + 1 + d := by omega
          rw [this]; exact h

lemma processItems_isItem (sched : Nat → Bool) (gen : Nat → GenResult)
    (add : Nat → String → AddResult) (mb : Nat → Bool) :
    ∀ (ws : List Picture) (k : Nat),
      ∀ e ∈ processItems sched gen add mb ws k, isItemEv e = true
  | [], _ => by intro e he; simp [processItems] at he
  | p :: ps, k => by
    intro e he
    rw [processItems] at he
    by_cases hk : sched k = true
    · simp [hk] at he
    · rw [if_neg hk] at he
      rcases List.mem_append.mp he with h | h
      · exact itemEvents_isItem gen add mb p e h
      · exact processItems_isItem sched gen add mb ps (k + 1) e h

lemma countP_advance_flatMap (gen : Nat → GenResult)
    (add : Nat → String → AddResult) (mb : Nat → Bool) :
    ∀ ws : List Picture,
      ((ws.flatMap (itemEvents gen add mb)).countP isAdvanceEv) = ws.length
  | [] => rfl
  | p :: ps => by
    simp only [List.flatMap_cons, List.countP_append, List.length_cons]
    rw [itemEvents_countP_advance, countP_advance_flatMap gen add mb ps]
    omega

/-- When processing of an item fails (ordinary error or panic in
generation, or generation succeeds and persistence fails), the
per-item events are exactly a `mark_broken` call followed by one
`Advance`. -/
lemma itemEvents_failsFor (gen : Nat → GenResult)
    (add : Nat → String → AddResult) (mb : Nat → Bool) (p : Picture)
    (hf : failsFor gen add p.picture_id) :
    itemEvents gen add mb p =
      [.markBroken p.picture_id (mb p.picture_id), .pmAdvance] := by
  rcases hf with h | h | ⟨tp, hg, ha⟩
  · simp [itemEvents, h]
  · simp [itemEvents, h]
  · cases hA : add p.picture_id tp with
    | ok => exact absurd hA ha
    | err => simp [itemEvents, hg, hA]
    | panicked => simp [itemEvents, hg, hA]

/-- When generation and persistence both succeed, the per-item events
are exactly the thumbnail commit followed by one `Advance`. -/
lemma itemEvents_success (gen : Nat → GenResult)
    (add : Nat → String → AddResult) (mb : Nat → Bool) (p : Picture)
    (tp : String) (hg : gen p.picture_id = .ok tp)
    (ha : add p.picture_id tp = .ok) :
    itemEvents gen add mb p = [.addThumbnail p.picture_id tp, .pmAdvance] := by
  simp [itemEvents, hg, ha]

/-- A `markBroken` event among an item's events names that item and
witnesses that the item's processing failed. -/
lemma markBroken_mem_itemEvents (gen : Nat → GenResult)
    (add : Nat → String → AddResult) (mb : Nat → Bool) (q : Picture)
    (id : Nat) (b : Bool)
    (h : Event.markBroken id b ∈ itemEvents gen add mb q) :
    id = q.picture_id ∧ failsFor gen add q.picture_id := by
  cases hg : gen q.picture_id with
  | ok tp =>
    cases ha : add q.picture_id tp with
    | ok => simp [itemEvents, hg, ha] at h
    | err =>
      simp [itemEvents, hg, ha] at h
      exact ⟨h.1, Or.inr (Or.inr ⟨tp, hg, by simp [ha]⟩)⟩
    | panicked =>
      simp [itemEvents, hg, ha] at h
      exact ⟨h.1, Or.inr (Or.inr ⟨tp, hg, by simp [ha]⟩)⟩
  | err =>
    simp [itemEvents, hg] at h
    exact ⟨h.1, Or.inl hg⟩
  | panicked =>
    simp [itemEvents, hg] at h
    exact ⟨h.1, Or.inr (Or.inl hg)⟩

/-- An `addThumbnail` event among an item's events names that item,
its generated path, and witnesses that both steps succeeded. -/
lemma addThumbnail_mem_itemEvents (gen : Nat → GenResult)
    (add : Nat → String → AddResult) (mb : Nat → Bool) (q : Picture)
    (id : Nat) (tp : String)
    (h : Event.addThumbnail id tp ∈ itemEvents gen add mb q) :
    id = q.picture_id ∧ gen q.picture_id = .ok tp ∧
      add q.picture_id tp = .ok := by
  cases hg : gen q.picture_id with
  | ok tp₂ =>
    cases ha : add q.picture_id tp₂ with
    | ok =>
      simp [itemEvents, hg, ha] at h
      rcases h with ⟨h1, h2⟩
      subst h2
      exact ⟨h1, rfl, ha⟩
    | err => simp [itemEvents, hg, ha] at h
    | panicked => simp [itemEvents, hg, ha] at h
  | err => simp [itemEvents, hg] at h
  | panicked => simp [itemEvents, hg] at h

/-- Shape of the full trace of a run with a non-empty work set. -/
lemma enrich_ok_trace (cat : List Picture) (fs : String → Bool)
    (sched : Nat → Bool) (gen : Nat → GenResult)
    (add : Nat → String → AddResult) (mb : Nat → Bool)
    (h : workSet fs cat ≠ []) :
    (enrich (.ok cat) fs sched gen add mb).1 =
      .started :: .pmStart (workSet fs cat).length ::
        (processItems sched gen add mb (workSet fs cat) 0 ++
          [.pmComplete, .completed (workSet fs cat).length]) := by
  have hl : (workSet fs cat).length ≠ 0 := by simpa using h
  simp [enrich, hl]

lemma thumbExists_false_iff (fs : String → Bool) (p : Picture) :
    thumbExists fs p = false ↔
      (p.thumbnail_path = none ∨
        ∀ tp, p.thumbnail_path = some tp → fs tp = false) := by
  cases h : p.thumbnail_path with
  | none => simp [thumbExists, h]
  | some tp => simp [thumbExists, h]

lemma itemEvents_map_eraseMB (gen : Nat → GenResult)
    (add : Nat → String → AddResult) (mb₁ mb₂ : Nat → Bool) (p : Picture) :
    (itemEvents gen add mb₁ p).map eraseMB =
      (itemEvents gen add mb₂ p).map eraseMB := by
  cases hg : gen p.picture_id with
  | ok tp => cases ha : add p.picture_id tp <;> simp [itemEvents, hg, ha, eraseMB]
  | err => simp [itemEvents, hg, eraseMB]
  | panicked => simp [itemEvents, hg, eraseMB]

lemma processItems_map_eraseMB (sched : Nat → Bool) (gen : Nat → GenResult)
    (add : Nat → String → AddResult) (mb₁ mb₂ : Nat → Bool) :
    ∀ (ws : List Picture) (k : Nat),
      (processItems sched gen add mb₁ ws k).map eraseMB =
        (processItems sched gen add mb₂ ws k).map eraseMB
  | [], _ => rfl
  | p :: ps, k => by
    by_cases hk : sched k = true
    · simp [processItems, hk]
    · rw [processItems, processItems, if_neg hk, if_neg hk]
      simp only [List.map_append]
      rw [itemEvents_map_eraseMB gen add mb₁ mb₂ p,
        processItems_map_eraseMB sched gen add mb₁ mb₂ ps (k + 1)]

/-! ### Claim theorems -/

/-- C2: an item is in the computed work set iff it is in the catalog,
its source file currently exists, and it either has no recorded
thumbnail location or that location does not currently exist; items
with a missing source file or an existing thumbnail are excluded. -/
theorem workSet_mem_iff (fs : String → Bool) (cat : List Picture) (p : Picture) :
    p ∈ workSet fs cat ↔
      p ∈ cat ∧ fs p.path = true ∧
        (p.thumbnail_path = none ∨
          ∀ tp, p.thumbnail_path = some tp → fs tp = false) := by
  rw [workSet, List.mem_reverse, List.mem_filter, List.mem_filter]
  simp only [Bool.not_eq_true', and_assoc]
  rw [thumbExists_false_iff]

/-- C8: the work set preserves the repository's read order under the
eligibility filter and then reverses it, so items are processed in
the exact reverse of the order `repo.all()` returned them. -/
theorem workSet_newest_first (fs : String → Bool) (cat : List Picture) :
    workSet fs cat =
      (cat.filter (fun p => fs p.path && ! thumbExists fs p)).reverse ∧
    List.Sublist (workSet fs cat).reverse cat := by
  constructor
  · rw [workSet, List.filter_filter]
    simp only [Bool.and_comm]
  · rw [workSet, List.reverse_reverse]
    exact (List.filter_sublist _).trans (List.filter_sublist _)

/-- C4: when the computed work set is empty, the run emits exactly
one completion event carrying count 0 and nothing else — no
`Started`, no progress-monitor begin, no advance, no item events. -/
theorem enrich_empty_workSet (cat : List Picture) (fs : String → Bool)
    (sched : Nat → Bool) (gen : Nat → GenResult)
    (add : Nat → String → AddResult) (mb : Nat → Bool)
    (h : workSet fs cat = []) :
    (enrich (.ok cat) fs sched gen add mb).1 = [.completed 0] ∧
    (enrich (.ok cat) fs sched gen add mb).2 = .ok () ∧
    ((enrich (.ok cat) fs sched gen add mb).1).countP isCompletedEv = 1 ∧
    ((enrich (.ok cat) fs sched gen add mb).1).countP isStartedEv = 0 ∧
    ((enrich (.ok cat) fs sched gen add mb).1).countP isPmStartEv = 0 ∧
    ((enrich (.ok cat) fs sched gen add mb).1).countP isAdvanceEv = 0 := by
  have ht : enrich (.ok cat) fs sched gen add mb = ([.completed 0], .ok ()) := by
    simp [enrich, h]
  rw [ht]
  exact ⟨rfl, rfl, rfl, rfl, rfl, rfl⟩

theorem enrich_empty_workSet_witness :
    workSet (fun _ => true) [] = [] ∧
    ((enrich (.ok []) (fun _ => true) (fun _ => false) (fun _ => GenResult.err)
        (fun _ _ => AddResult.ok) (fun _ => true)).1 = [.completed 0] ∧
      (enrich (.ok []) (fun _ => true) (fun _ => false) (fun _ => GenResult.err)
        (fun _ _ => AddResult.ok) (fun _ => true)).2 = .ok () ∧
      ((enrich (.ok []) (fun _ => true) (fun _ => false) (fun _ => GenResult.err)
        (fun _ _ => AddResult.ok) (fun _ => true)).1).countP isCompletedEv = 1 ∧
      ((enrich (.ok []) (fun _ => true) (fun _ => false) (fun _ => GenResult.err)
        (fun _ _ => AddResult.ok) (fun _ => true)).1).countP isStartedEv = 0 ∧
      ((enrich (.ok []) (fun _ => true) (fun _ => false) (fun _ => GenResult.err)
        (fun _ _ => AddResult.ok) (fun _ => true)).1).countP isPmStartEv = 0 ∧
      ((enrich (.ok []) (fun _ => true) (fun _ => false) (fun _ => GenResult.err)
        (fun _ _ => AddResult.ok) (fun _ => true)).1).countP isAdvanceEv = 0) :=
  ⟨rfl, enrich_empty_workSet [] (fun _ => true) (fun _ => false)
    (fun _ => GenResult.err) (fun _ _ => AddResult.ok) (fun _ => true) rfl⟩

/-- C6: a catalog read error aborts the run with no event emitted and
no item processed, and the error is the value returned to the caller;
a successful catalog read always yields a successful return, so the
catalog read is the only way `enrich` fails. -/
theorem enrich_catalog_error_only :
    (∀ (e : String) (fs : String → Bool) (sched : Nat → Bool)
        (gen : Nat → GenResult) (add : Nat → String → AddResult)
        (mb : Nat → Bool),
      enrich (.error e) fs sched gen add mb = ([], .error e)) ∧
    (∀ (cat : List Picture) (fs : String → Bool) (sched : Nat → Bool)
        (gen : Nat → GenResult) (add : Nat → String → AddResult)
        (mb : Nat → Bool),
      (enrich (.ok cat) fs sched gen add mb).2 = .ok ()) := by
  constructor
  · intro e fs sched gen add mb
    rfl
  · intro cat fs sched gen add mb
    by_cases h : (workSet fs cat).length = 0 <;> simp [enrich, h]

/-- C7: the result of each `mark_broken` call is discarded: two runs
that differ only in whether `mark_broken` succeeds produce the same
trace (up to the recorded result of the call itself) and the same
return value, so a `mark_broken` failure never escalates and never
changes the run. -/
theorem enrich_markBroken_never_escalates
    (catalog : Except String (List Picture)) (fs : String → Bool)
    (sched : Nat → Bool) (gen : Nat → GenResult)
    (add : Nat → String → AddResult) (mb₁ mb₂ : Nat → Bool) :
    ((enrich catalog fs sched gen add mb₁).1).map eraseMB =
      ((enrich catalog fs sched gen add mb₂).1).map eraseMB ∧
    (enrich catalog fs sched gen add mb₁).2 =
      (enrich catalog fs sched gen add mb₂).2 := by
  cases catalog with
  | error e => exact ⟨rfl, rfl⟩
  | ok cat =>
    by_cases h : (workSet fs cat).length = 0
    · simp [enrich, h]
    · have hne : workSet fs cat ≠ [] := by
        intro hc
        rw [hc] at h
        exact h rfl
      constructor
      · rw [enrich_ok_trace cat fs sched gen add mb₁ hne,
          enrich_ok_trace cat fs sched gen add mb₂ hne]
        simp only [List.map_cons, List.map_append]
        rw [processItems_map_eraseMB sched gen add mb₁ mb₂ (workSet fs cat) 0]
      · simp [enrich, h]

lemma countP_eq_zero_of_item (f : Event → Bool)
    (hf : ∀ e, isItemEv e = true → f e = false) (l : List Event)
    (hl : ∀ e ∈ l, isItemEv e = true) : l.countP f = 0 := by
  rw [List.countP_eq_zero]
  intro e he
  rw [hf e (hl e he)]
  exact Bool.false_ne_true

lemma flatMap_itemEvents_isItem (gen : Nat → GenResult)
    (add : Nat → String → AddResult) (mb : Nat → Bool) (ws : List Picture) :
    ∀ e ∈ ws.flatMap (itemEvents gen add mb), isItemEv e = true := by
  intro e he
  rw [List.mem_flatMap] at he
  obtain ⟨q, hq, he⟩ := he
  exact itemEvents_isItem gen add mb q e he

/-- C3: a run with a non-empty work set emits exactly one `Started`,
as the very first event (hence before every `Advance`), and exactly
one `Completed`, as the very last event (hence after every
`Advance`), carrying the work-set size computed at run start. -/
theorem enrich_lifecycle_nonempty (cat : List Picture) (fs : String → Bool)
    (sched : Nat → Bool) (gen : Nat → GenResult)
    (add : Nat → String → AddResult) (mb : Nat → Bool)
    (h : workSet fs cat ≠ []) :
    ∃ body,
      (enrich (.ok cat) fs sched gen add mb).1 =
        .started :: .pmStart (workSet fs cat).length ::
          (body ++ [.pmComplete, .completed (workSet fs cat).length]) ∧
      (∀ e ∈ body, isItemEv e = true) ∧
      ((enrich (.ok cat) fs sched gen add mb).1).countP isStartedEv = 1 ∧
      ((enrich (.ok cat) fs sched gen add mb).1).countP isCompletedEv = 1 := by
  have ht := enrich_ok_trace cat fs sched gen add mb h
  have hitem := processItems_isItem sched gen add mb (workSet fs cat) 0
  refine ⟨processItems sched gen add mb (workSet fs cat) 0, ht, hitem, ?_, ?_⟩
  · rw [ht]
    have hz : (processItems sched gen add mb (workSet fs cat) 0).countP
        isStartedEv = 0 :=
      countP_eq_zero_of_item isStartedEv (by intro e he; cases e <;> simp_all [isItemEv, isStartedEv]) _ hitem
    simp [List.countP_cons, List.countP_append, hz, isStartedEv]
  · rw [ht]
    have hz : (processItems sched gen add mb (workSet fs cat) 0).countP
        isCompletedEv = 0 :=
      countP_eq_zero_of_item isCompletedEv (by intro e he; cases e <;> simp_all [isItemEv, isCompletedEv]) _ hitem
    simp [List.countP_cons, List.countP_append, hz, isCompletedEv]

theorem enrich_lifecycle_nonempty_witness :
    workSet (fun _ => true) [⟨3, "a", none⟩] ≠ [] ∧
    (∃ body,
      (enrich (.ok [⟨3, "a", none⟩]) (fun _ => true) (fun _ => false)
        (fun _ => GenResult.ok "t") (fun _ _ => AddResult.ok) (fun _ => true)).1 =
        .started :: .pmStart (workSet (fun _ => true) [⟨3, "a", none⟩]).length ::
          (body ++ [.pmComplete,
            .completed (workSet (fun _ => true) [⟨3, "a", none⟩]).length]) ∧
      (∀ e ∈ body, isItemEv e = true) ∧
      ((enrich (.ok [⟨3, "a", none⟩]) (fun _ => true) (fun _ => false)
        (fun _ => GenResult.ok "t") (fun _ _ => AddResult.ok)
        (fun _ => true)).1).countP isStartedEv = 1 ∧
      ((enrich (.ok [⟨3, "a", none⟩]) (fun _ => true) (fun _ => false)
        (fun _ => GenResult.ok "t") (fun _ _ => AddResult.ok)
        (fun _ => true)).1).countP isCompletedEv = 1) :=
  ⟨by decide, enrich_lifecycle_nonempty [⟨3, "a", none⟩] (fun _ => true)
    (fun _ => false) (fun _ => GenResult.ok "t") (fun _ _ => AddResult.ok)
    (fun _ => true) (by decide)⟩

/-- C9 as stated is false on the code: in a run with a non-empty work
set the control-surface `Started` output is sent (index 0 in the
trace) before the progress monitor's begin event (index 1), not
after it. -/
theorem pmStart_before_started_refuted :
    workSet (fun _ => true) [⟨1, "a", none⟩] ≠ [] ∧
    ¬ (((enrich (.ok [⟨1, "a", none⟩]) (fun _ => true) (fun _ => false)
          (fun _ => GenResult.ok "t") (fun _ _ => AddResult.ok)
          (fun _ => true)).1).findIdx isPmStartEv <
        ((enrich (.ok [⟨1, "a", none⟩]) (fun _ => true) (fun _ => false)
          (fun _ => GenResult.ok "t") (fun _ _ => AddResult.ok)
          (fun _ => true)).1).findIdx isStartedEv) := by
  decide

/-- C9 amended: in a run with a non-empty work set, the `Started`
output to the control surface is emitted first, and only afterwards
the "task begun, N total units" event to the progress monitor. -/
theorem enrich_started_then_pmStart (cat : List Picture) (fs : String → Bool)
    (sched : Nat → Bool) (gen : Nat → GenResult)
    (add : Nat → String → AddResult) (mb : Nat → Bool)
    (h : workSet fs cat ≠ []) :
    ((enrich (.ok cat) fs sched gen add mb).1).take 2 =
      [.started, .pmStart (workSet fs cat).length] ∧
    ((enrich (.ok cat) fs sched gen add mb).1).findIdx isStartedEv <
      ((enrich (.ok cat) fs sched gen add mb).1).findIdx isPmStartEv := by
  rw [enrich_ok_trace cat fs sched gen add mb h]
  exact ⟨rfl, by simp [List.findIdx_cons, isStartedEv, isPmStartEv]⟩

theorem enrich_started_then_pmStart_witness :
    workSet (fun _ => true) [⟨7, "a", none⟩] ≠ [] ∧
    (((enrich (.ok [⟨7, "a", none⟩]) (fun _ => true) (fun _ => false)
        (fun _ => GenResult.ok "t") (fun _ _ => AddResult.ok)
        (fun _ => true)).1).take 2 =
      [.started, .pmStart (workSet (fun _ => true) [⟨7, "a", none⟩]).length] ∧
    ((enrich (.ok [⟨7, "a", none⟩]) (fun _ => true) (fun _ => false)
        (fun _ => GenResult.ok "t") (fun _ _ => AddResult.ok)
        (fun _ => true)).1).findIdx isStartedEv <
      ((enrich (.ok [⟨7, "a", none⟩]) (fun _ => true) (fun _ => false)
        (fun _ => GenResult.ok "t") (fun _ _ => AddResult.ok)
        (fun _ => true)).1).findIdx isPmStartEv) :=
  ⟨by decide, enrich_started_then_pmStart [⟨7, "a", none⟩] (fun _ => true)
    (fun _ => false) (fun _ => GenResult.ok "t") (fun _ _ => AddResult.ok)
    (fun _ => true) (by decide)⟩

/-- C1: in a run that is never cancelled, every work-set item whose
generation or persistence errors or panics gets a `mark_broken` call,
the `Advance` count still reaches the full work-set size (so its
advance is emitted and every remaining item is still processed), the
run still emits its completion events, and `enrich` returns `Ok`. -/
theorem enrich_fault_isolation (cat : List Picture) (fs : String → Bool)
    (gen : Nat → GenResult) (add : Nat → String → AddResult) (mb : Nat → Bool)
    (p : Picture)
    (hp : p ∈ workSet fs cat)
    (hf : failsFor gen add p.picture_id) :
    Event.markBroken p.picture_id (mb p.picture_id) ∈
      (enrich (.ok cat) fs (fun _ => false) gen add mb).1 ∧
    ((enrich (.ok cat) fs (fun _ => false) gen add mb).1).countP isAdvanceEv =
      (workSet fs cat).length ∧
    Event.completed (workSet fs cat).length ∈
      (enrich (.ok cat) fs (fun _ => false) gen add mb).1 ∧
    ((enrich (.ok cat) fs (fun _ => false) gen add mb).1).countP
      isCompletedEv = 1 ∧
    (enrich (.ok cat) fs (fun _ => false) gen add mb).2 = .ok () := by
  have hne : workSet fs cat ≠ [] := by
    intro hc
    rw [hc] at hp
    exact absurd hp (List.not_mem_nil p)
  have ht : (enrich (.ok cat) fs (fun _ => false) gen add mb).1 =
      .started :: .pmStart (workSet fs cat).length ::
        ((workSet fs cat).flatMap (itemEvents gen add mb) ++
          [.pmComplete, .completed (workSet fs cat).length]) := by
    rw [enrich_ok_trace cat fs (fun _ => false) gen add mb hne,
      processItems_noStop (fun _ => false) gen add mb (fun _ => rfl)
        (workSet fs cat) 0]
  refine ⟨?_, ?_, ?_, ?_, ?_⟩
  · rw [ht]
    refine List.mem_cons_of_mem _ (List.mem_cons_of_mem _
      (List.mem_append_left _ ?_))
    rw [List.mem_flatMap]
    refine ⟨p, hp, ?_⟩
    rw [itemEvents_failsFor gen add mb p hf]
    exact List.mem_cons_self _ _
  · rw [ht]
    simp only [List.countP_cons, List.countP_append,
      countP_advance_flatMap gen add mb (workSet fs cat)]
    simp [isAdvanceEv]
  · rw [ht]
    simp
  · rw [ht]
    have hz : ((workSet fs cat).flatMap (itemEvents gen add mb)).countP
        isCompletedEv = 0 :=
      countP_eq_zero_of_item isCompletedEv
        (by intro e he; cases e <;> simp_all [isItemEv, isCompletedEv]) _
        (flatMap_itemEvents_isItem gen add mb (workSet fs cat))
    simp [List.countP_cons, List.countP_append, hz, isCompletedEv]
  · have hl : (workSet fs cat).length ≠ 0 := by simpa using hne
    simp [enrich, hl]

theorem enrich_fault_isolation_witness :
    (⟨1, "a", none⟩ : Picture) ∈ workSet (fun _ => true)
      [⟨1, "a", none⟩, ⟨2, "b", none⟩] ∧
    failsFor (fun id => match id with | 1 => GenResult.err | _ => GenResult.ok "t")
      (fun _ _ => AddResult.ok) (1 : Nat) ∧
    (Event.markBroken 1 true ∈
      (enrich (.ok [⟨1, "a", none⟩, ⟨2, "b", none⟩]) (fun _ => true)
        (fun _ => false)
        (fun id => match id with | 1 => GenResult.err | _ => GenResult.ok "t")
        (fun _ _ => AddResult.ok) (fun _ => true)).1 ∧
    ((enrich (.ok [⟨1, "a", none⟩, ⟨2, "b", none⟩]) (fun _ => true)
        (fun _ => false)
        (fun id => match id with | 1 => GenResult.err | _ => GenResult.ok "t")
        (fun _ _ => AddResult.ok) (fun _ => true)).1).countP isAdvanceEv =
      (workSet (fun _ => true) [⟨1, "a", none⟩, ⟨2, "b", none⟩]).length ∧
    Event.completed (workSet (fun _ => true)
        [⟨1, "a", none⟩, ⟨2, "b", none⟩]).length ∈
      (enrich (.ok [⟨1, "a", none⟩, ⟨2, "b", none⟩]) (fun _ => true)
        (fun _ => false)
        (fun id => match id with | 1 => GenResult.err | _ => GenResult.ok "t")
        (fun _ _ => AddResult.ok) (fun _ => true)).1 ∧
    ((enrich (.ok [⟨1, "a", none⟩, ⟨2, "b", none⟩]) (fun _ => true)
        (fun _ => false)
        (fun id => match id with | 1 => GenResult.err | _ => GenResult.ok "t")
        (fun _ _ => AddResult.ok) (fun _ => true)).1).countP isCompletedEv = 1 ∧
    (enrich (.ok [⟨1, "a", none⟩, ⟨2, "b", none⟩]) (fun _ => true)
        (fun _ => false)
        (fun id => match id with | 1 => GenResult.err | _ => GenResult.ok "t")
        (fun _ _ => AddResult.ok) (fun _ => true)).2 = .ok ()) :=
  ⟨by decide, Or.inl rfl,
    enrich_fault_isolation [⟨1, "a", none⟩, ⟨2, "b", none⟩] (fun _ => true)
      (fun id => match id with | 1 => GenResult.err | _ => GenResult.ok "t")
      (fun _ _ => AddResult.ok) (fun _ => true) ⟨1, "a", none⟩ (by decide)
      (Or.inl rfl)⟩

/-- C5: if the stop flag is observed unset at the first `m` dispatch
checks of a run over `n` work-set items, then some prefix of `d`
items with `m ≤ d ≤ n` is dispatched: the loop's events are exactly
the full per-item event sequences of the first `d` items (so no new
item is dispatched after the flag is observed set and every item
dispatched before then runs to completion), and the number of
`Advance` events emitted is `d`, hence at least `m` and at most `n`. -/
theorem enrich_cancellation (cat : List Picture) (fs : String → Bool)
    (sched : Nat → Bool) (gen : Nat → GenResult)
    (add : Nat → String → AddResult) (mb : Nat → Bool) (m : Nat)
    (hm : ∀ i, i < m → sched i = false)
    (hmn : m ≤ (workSet fs cat).length) :
    ∃ d, m ≤ d ∧ d ≤ (workSet fs cat).length ∧
      runBody (.ok cat) fs sched gen add mb =
        ((workSet fs cat).take d).flatMap (itemEvents gen add mb) ∧
      (∃ t, runBody (.ok cat) fs sched gen add mb =
        (((workSet fs cat).take m).flatMap (itemEvents gen add mb)) ++ t) ∧
      ((enrich (.ok cat) fs sched gen add mb).1).countP isAdvanceEv = d := by
  obtain ⟨d, hd, heq, hunset, hend⟩ :=
    processItems_eq_take sched gen add mb (workSet fs cat) 0
  have hmd : m ≤ d := by
    by_contra hlt
    push_neg at hlt
    rcases hend with h | h
    · omega
    · rw [Nat.zero_add] at h
      rw [hm d (by omega)] at h
      exact Bool.false_ne_true h
  have hsplit : (workSet fs cat).take d =
      (workSet fs cat).take m ++ ((workSet fs cat).drop m).take (d - m) := by
    conv_lhs => rw [show d = m + (d - m) by omega]
    exact List.take_add _ _ _
  have hrb : runBody (.ok cat) fs sched gen add mb =
      ((workSet fs cat).take d).flatMap (itemEvents gen add mb) := heq
  refine ⟨d, hmd, hd, hrb, ?_, ?_⟩
  · refine ⟨(((workSet fs cat).drop m).take (d - m)).flatMap
      (itemEvents gen add mb), ?_⟩
    rw [hrb, hsplit, List.flatMap_append]
  · by_cases hws : workSet fs cat = []
    · have hd0 : d = 0 := by
        rw [hws] at hd
        simpa using hd
      have : enrich (.ok cat) fs sched gen add mb = ([.completed 0], .ok ()) := by
        simp [enrich, hws]
      rw [this, hd0]
      rfl
    · rw [enrich_ok_trace cat fs sched gen add mb hws, heq]
      have hcnt : (((workSet fs cat).take d).flatMap
          (itemEvents gen add mb)).countP isAdvanceEv =
          ((workSet fs cat).take d).length :=
        countP_advance_flatMap gen add mb _
      have hlen : ((workSet fs cat).take d).length = d := by
        rw [List.length_take]
        omega
      simp only [List.countP_cons, List.countP_append, hcnt, hlen]
      simp [isAdvanceEv]

theorem enrich_cancellation_witness :
    (∀ i, i < 1 → (fun j => decide (1 ≤ j)) i = false) ∧
    1 ≤ (workSet (fun _ => true) [⟨1, "a", none⟩, ⟨2, "b", none⟩]).length ∧
    (∃ d, 1 ≤ d ∧
      d ≤ (workSet (fun _ => true) [⟨1, "a", none⟩, ⟨2, "b", none⟩]).length ∧
      runBody (.ok [⟨1, "a", none⟩, ⟨2, "b", none⟩]) (fun _ => true)
          (fun j => decide (1 ≤ j)) (fun _ => GenResult.ok "t")
          (fun _ _ => AddResult.ok) (fun _ => true) =
        ((workSet (fun _ => true) [⟨1, "a", none⟩, ⟨2, "b", none⟩]).take
          d).flatMap (itemEvents (fun _ => GenResult.ok "t")
            (fun _ _ => AddResult.ok) (fun _ => true)) ∧
      (∃ t, runBody (.ok [⟨1, "a", none⟩, ⟨2, "b", none⟩]) (fun _ => true)
          (fun j => decide (1 ≤ j)) (fun _ => GenResult.ok "t")
          (fun _ _ => AddResult.ok) (fun _ => true) =
        (((workSet (fun _ => true) [⟨1, "a", none⟩, ⟨2, "b", none⟩]).take
          1).flatMap (itemEvents (fun _ => GenResult.ok "t")
            (fun _ _ => AddResult.ok) (fun _ => true))) ++ t) ∧
      ((enrich (.ok [⟨1, "a", none⟩, ⟨2, "b", none⟩]) (fun _ => true)
          (fun j => decide (1 ≤ j)) (fun _ => GenResult.ok "t")
          (fun _ _ => AddResult.ok) (fun _ => true)).1).countP isAdvanceEv = d) :=
  ⟨by decide, by decide,
    enrich_cancellation [⟨1, "a", none⟩, ⟨2, "b", none⟩] (fun _ => true)
      (fun j => decide (1 ≤ j)) (fun _ => GenResult.ok "t")
      (fun _ _ => AddResult.ok) (fun _ => true) 1 (by decide) (by decide)⟩

/-- C10: in a never-cancelled run over a work set with distinct
picture ids, an item receives a `mark_broken` call iff its generation
or persistence errors or panics; an item whose generation and
persistence both succeed has exactly its generated thumbnail path
committed via `add_thumbnail`, is never marked broken, and its
processing emits exactly one `Advance`. -/
theorem enrich_per_item_commit (cat : List Picture) (fs : String → Bool)
    (gen : Nat → GenResult) (add : Nat → String → AddResult) (mb : Nat → Bool)
    (p : Picture)
    (hnd : ((workSet fs cat).map Picture.picture_id).Nodup)
    (hp : p ∈ workSet fs cat) :
    ((∃ b, Event.markBroken p.picture_id b ∈
        (enrich (.ok cat) fs (fun _ => false) gen add mb).1) ↔
      failsFor gen add p.picture_id) ∧
    (∀ tp, gen p.picture_id = .ok tp → add p.picture_id tp = .ok →
      Event.addThumbnail p.picture_id tp ∈
        (enrich (.ok cat) fs (fun _ => false) gen add mb).1 ∧
      (∀ tp₂, Event.addThumbnail p.picture_id tp₂ ∈
          (enrich (.ok cat) fs (fun _ => false) gen add mb).1 → tp₂ = tp)) ∧
    (itemEvents gen add mb p).countP isAdvanceEv = 1 := by
  have hne : workSet fs cat ≠ [] := by
    intro hc
    rw [hc] at hp
    exact absurd hp (List.not_mem_nil p)
  have ht : (enrich (.ok cat) fs (fun _ => false) gen add mb).1 =
      .started :: .pmStart (workSet fs cat).length ::
        ((workSet fs cat).flatMap (itemEvents gen add mb) ++
          [.pmComplete, .completed (workSet fs cat).length]) := by
    rw [enrich_ok_trace cat fs (fun _ => false) gen add mb hne,
      processItems_noStop (fun _ => false) gen add mb (fun _ => rfl)
        (workSet fs cat) 0]
  have hinj := List.inj_on_of_nodup_map hnd
  have hmemMB : ∀ (id : Nat) (b : Bool),
      Event.markBroken id b ∈ (enrich (.ok cat) fs (fun _ => false) gen add mb).1 ↔
        Event.markBroken id b ∈ (workSet fs cat).flatMap (itemEvents gen add mb) := by
    intro id b
    rw [ht]
    simp
  have hmemAT : ∀ (id : Nat) (tp : String),
      Event.addThumbnail id tp ∈ (enrich (.ok cat) fs (fun _ => false) gen add mb).1 ↔
        Event.addThumbnail id tp ∈ (workSet fs cat).flatMap (itemEvents gen add mb) := by
    intro id tp
    rw [ht]
    simp
  refine ⟨⟨?_, ?_⟩, ?_, itemEvents_countP_advance gen add mb p⟩
  · rintro ⟨b, hb⟩
    rw [hmemMB, List.mem_flatMap] at hb
    obtain ⟨q, hq, hbq⟩ := hb
    obtain ⟨hid, hf⟩ := markBroken_mem_itemEvents gen add mb q _ _ hbq
    have hqp : q = p := hinj hq hp hid.symm
    rw [hqp] at hf
    exact hf
  · intro hf
    refine ⟨mb p.picture_id, ?_⟩
    rw [hmemMB, List.mem_flatMap]
    refine ⟨p, hp, ?_⟩
    rw [itemEvents_failsFor gen add mb p hf]
    exact List.mem_cons_self _ _
  · intro tp hg ha
    constructor
    · rw [hmemAT, List.mem_flatMap]
      refine ⟨p, hp, ?_⟩
      rw [itemEvents_success gen add mb p tp hg ha]
      exact List.mem_cons_self _ _
    · intro tp₂ h₂
      rw [hmemAT, List.mem_flatMap] at h₂
      obtain ⟨q, hq, hq₂⟩ := h₂
      obtain ⟨hid, hg₂, ha₂⟩ := addThumbnail_mem_itemEvents gen add mb q _ _ hq₂
      have hqp : q = p := hinj hq hp hid.symm
      rw [hqp] at hg₂
      injection hg.symm.trans hg₂ with h
      exact h.symm

theorem enrich_per_item_commit_witness :
    ((workSet (fun _ => true) [⟨1, "a", none⟩, ⟨2, "b", none⟩]).map
      Picture.picture_id).Nodup ∧
    (⟨2, "b", none⟩ : Picture) ∈ workSet (fun _ => true)
      [⟨1, "a", none⟩, ⟨2, "b", none⟩] ∧
    (((∃ b, Event.markBroken 2 b ∈
        (enrich (.ok [⟨1, "a", none⟩, ⟨2, "b", none⟩]) (fun _ => true)
          (fun _ => false) (fun _ => GenResult.ok "t")
          (fun _ _ => AddResult.ok) (fun _ => true)).1) ↔
      failsFor (fun _ => GenResult.ok "t") (fun _ _ => AddResult.ok) 2) ∧
    (∀ tp, (fun _ => GenResult.ok "t") 2 = GenResult.ok tp →
      (fun _ _ => AddResult.ok) 2 tp = AddResult.ok →
      Event.addThumbnail 2 tp ∈
        (enrich (.ok [⟨1, "a", none⟩, ⟨2, "b", none⟩]) (fun _ => true)
          (fun _ => false) (fun _ => GenResult.ok "t")
          (fun _ _ => AddResult.ok) (fun _ => true)).1 ∧
      (∀ tp₂, Event.addThumbnail 2 tp₂ ∈
          (enrich (.ok [⟨1, "a", none⟩, ⟨2, "b", none⟩]) (fun _ => true)
            (fun _ => false) (fun _ => GenResult.ok "t")
            (fun _ _ => AddResult.ok) (fun _ => true)).1 → tp₂ = tp)) ∧
    (itemEvents (fun _ => GenResult.ok "t") (fun _ _ => AddResult.ok)
      (fun _ => true) ⟨2, "b", none⟩).countP isAdvanceEv = 1) :=
  ⟨by decide, by decide,
    enrich_per_item_commit [⟨1, "a", none⟩, ⟨2, "b", none⟩] (fun _ => true)
      (fun _ => GenResult.ok "t") (fun _ _ => AddResult.ok) (fun _ => true)
      ⟨2, "b", none⟩ (by decide) (by decide)⟩

